import Mathlib

/-!
Shallow embedding of `src/common/export_serializer.h` (namespace `nstore`):
the Export serialization Reader (`ExportSerializeInput`) and Writer
(`ExportSerializeOutput`).

Modelling conventions:
* A byte buffer is a total function `Nat → Nat`; cells that matter hold
  values `< 256`.  The Reader's underlying memory is `Int → Nat` because the
  source manipulates raw pointers that can move before the start of the
  buffer (`unread`); reading a memory cell passes through `% 256`, since a
  machine byte always holds a value `< 256`.
* Multi-byte values are stored in little-endian order (the host order of the
  platforms the source targets, as fixed by the spec's wire-format section);
  a `w`-byte signed integer is stored as its two's-complement pattern
  `pattern w v` (what `memcpy` of the integer stores) and decoded with
  `toSigned w` (what `memcpy` into a signed integer yields).
* Floats and doubles are represented by their IEEE-754 bit patterns
  (`Nat < 2^32` resp. `< 2^64`): the source only ever moves them with
  `memcpy` through same-sized integers, so the bit pattern is the value and
  "bit-identical" round trips are equalities of patterns.
* `assert(c)` in the source is modelled as an explicit failure (`Except`)
  with the error kind the specification assigns to that check, raised at
  the program point of the assertion (hence before any buffer mutation of
  the same call, as in the source); code paths with no check at all are
  modelled as proceeding unchecked, exactly as the source does.
-/

namespace NStore

/-- Error kinds of the serializer (spec §7). -/
inductive SerializeError where
  | BufferOverrun
  | InvalidLength
  | RewindUnderflow
  | ValueOutOfRange
deriving DecidableEq, Repr

/-- Little-endian byte decomposition of `n` into `w` bytes. -/
def toLEBytes : Nat → Nat → List Nat
  | 0, _ => []
  | w + 1, n => n % 256 :: toLEBytes w (n / 256)

/-- Two's-complement `w`-byte pattern of the signed value `v`:
the bytes `memcpy` of a `w`-byte signed integer stores. -/
def pattern (w : Nat) (v : Int) : Nat := (v % ((256 ^ w : Nat) : Int)).toNat

/-- Decode a `w`-byte unsigned pattern as a two's-complement signed value:
what `memcpy` into a `w`-byte signed integer yields. -/
def toSigned (w : Nat) (n : Nat) : Int :=
  if 2 * n < 256 ^ w then (n : Int) else (n : Int) - ((256 ^ w : Nat) : Int)

/-- Store the byte list `l` into `buf` starting at offset `p` (`memcpy`). -/
def storeBytes : (Nat → Nat) → Nat → List Nat → (Nat → Nat)
  | buf, _, [] => buf
  | buf, p, b :: bs => storeBytes (Function.update buf p b) (p + 1) bs

/-- Read `w` bytes little-endian from memory starting at offset `c`. -/
def readLE (mem : Int → Nat) (c : Int) : Nat → Nat
  | 0 => 0
  | w + 1 => mem c % 256 + 256 * readLE mem (c + 1) w

/-- Reader state (`ExportSerializeInput`).  `current` and `endPos` are the
offsets of the source's `current_` and `end_` pointers relative to the start
of the buffer passed at construction (so construction yields `current = 0`,
`endPos = length`); `mem` is the surrounding memory, total because the
source reads through raw pointers without bounds checks. -/
structure ExportSerializeInput where
  mem : Int → Nat
  current : Int
  endPos : Int

/-- `ExportSerializeInput::readPrimitive<T>`: unchecked `memcpy` of
`w = sizeof(T)` bytes at `current_`, advancing `current_` by `w`.  The
source performs no bounds check here, so the operation is total. -/
def readPrimitive (w : Nat) (s : ExportSerializeInput) : Int × ExportSerializeInput :=
  (toSigned w (readLE s.mem s.current w), { s with current := s.current + (w : Int) })

/-- `readChar` (`readPrimitive<char>`; `char` is signed on the targeted hosts). -/
def readChar (s : ExportSerializeInput) : Int × ExportSerializeInput :=
  readPrimitive 1 s

/-- `readByte` (`readPrimitive<int8_t>`). -/
def readByte (s : ExportSerializeInput) : Int × ExportSerializeInput :=
  readPrimitive 1 s

/-- `readShort` (`readPrimitive<int16_t>`). -/
def readShort (s : ExportSerializeInput) : Int × ExportSerializeInput :=
  readPrimitive 2 s

/-- `readInt` (`readPrimitive<int32_t>`). -/
def readInt (s : ExportSerializeInput) : Int × ExportSerializeInput :=
  readPrimitive 4 s

/-- `readLong` (`readPrimitive<int64_t>`). -/
def readLong (s : ExportSerializeInput) : Int × ExportSerializeInput :=
  readPrimitive 8 s

/-- `readBool`: `return readByte();` — the `int8_t → bool` conversion is
`value != 0`. -/
def readBool (s : ExportSerializeInput) : Bool × ExportSerializeInput :=
  let r := readByte s
  (decide (r.1 ≠ 0), r.2)

/-- `readEnumInSingleByte`: `return readByte();`. -/
def readEnumInSingleByte (s : ExportSerializeInput) : Int × ExportSerializeInput :=
  readByte s

/-- `readFloat`: reads an `int32_t` and `memcpy`s its bits into a `float`;
the result is the 32-bit IEEE-754 pattern. -/
def readFloat (s : ExportSerializeInput) : Nat × ExportSerializeInput :=
  let r := readPrimitive 4 s
  (pattern 4 r.1, r.2)

/-- `readDouble`: reads an `int64_t` and `memcpy`s its bits into a `double`;
the result is the 64-bit IEEE-754 pattern. -/
def readDouble (s : ExportSerializeInput) : Nat × ExportSerializeInput :=
  let r := readPrimitive 8 s
  (pattern 8 r.1, r.2)

/-- `getRawPointer(length)`: returns the old `current_` and advances by
`length`; the source's `assert(current_ <= end_)` (checked after the
advance, i.e. `current + length ≤ end`) is modelled as `BufferOverrun`. -/
def getRawPointer (length : Nat) (s : ExportSerializeInput) :
    Except SerializeError (Int × ExportSerializeInput) :=
  if s.current + (length : Int) ≤ s.endPos then
    .ok (s.current, { s with current := s.current + (length : Int) })
  else
    .error .BufferOverrun

/-- `readTextString`: reads a 32-bit signed length with an unchecked
`readInt`, then — after the source's `assert(stringLength >= 0)`, modelled
as `InvalidLength` — copies that many bytes obtained via `getRawPointer`. -/
def readTextString (s : ExportSerializeInput) :
    Except SerializeError (List Nat × ExportSerializeInput) :=
  let r := readPrimitive 4 s
  if r.1 < 0 then .error .InvalidLength
  else
    match getRawPointer r.1.toNat r.2 with
    | .error e => .error e
    | .ok (p, s2) =>
        .ok ((List.range r.1.toNat).map (fun i : Nat => s2.mem (p + (i : Int)) % 256), s2)

/-- `readBytes(destination, length)`: `memcpy` from `getRawPointer(length)`;
the copied bytes are returned as a list. -/
def readBytes (length : Nat) (s : ExportSerializeInput) :
    Except SerializeError (List Nat × ExportSerializeInput) :=
  match getRawPointer length s with
  | .error e => .error e
  | .ok (p, s2) =>
      .ok ((List.range length).map (fun i : Nat => s2.mem (p + (i : Int)) % 256), s2)

/-- `unread(bytes)`: `current_ -= bytes;` with no validation of any kind
(the source comment warns it "could result in reading before the beginning
of the buffer"). -/
def unread (bytes : Nat) (s : ExportSerializeInput) : ExportSerializeInput :=
  { s with current := s.current - (bytes : Int) }

/-- Writer state (`ExportSerializeOutput`): caller-owned buffer, write
cursor `position_`, fixed `capacity_`. -/
structure ExportSerializeOutput where
  buffer : Nat → Nat
  position : Nat
  capacity : Nat

/-- `assureExpand(next_write)`: fails when
`position_ + next_write > capacity_` (the source's overflow check /
`assert(capacity_ >= minimum_desired)`), modelled as `BufferOverrun`. -/
def assureExpand (next : Nat) (s : ExportSerializeOutput) : Except SerializeError Unit :=
  if s.position + next ≤ s.capacity then .ok () else .error .BufferOverrun

/-- `ExportSerializeOutput::writePrimitive<T>`: `assureExpand(sizeof(T))`,
then `memcpy` of the value's `w`-byte pattern at `position_`, advancing
`position_` by `w`. -/
def writePrimitive (w : Nat) (v : Int) (s : ExportSerializeOutput) :
    Except SerializeError ExportSerializeOutput :=
  match assureExpand w s with
  | .error e => .error e
  | .ok _ => .ok { s with
      buffer := storeBytes s.buffer s.position (toLEBytes w (pattern w v)),
      position := s.position + w }

/-- `writeChar`. -/
def writeChar (v : Int) (s : ExportSerializeOutput) :
    Except SerializeError ExportSerializeOutput :=
  writePrimitive 1 v s

/-- `writeByte`. -/
def writeByte (v : Int) (s : ExportSerializeOutput) :
    Except SerializeError ExportSerializeOutput :=
  writePrimitive 1 v s

/-- `writeShort`: the source first casts `int16_t → uint16_t`; the bytes
stored are the value's two's-complement pattern either way, which is what
`pattern 2` inside `writePrimitive` computes. -/
def writeShort (v : Int) (s : ExportSerializeOutput) :
    Except SerializeError ExportSerializeOutput :=
  writePrimitive 2 v s

/-- `writeInt`. -/
def writeInt (v : Int) (s : ExportSerializeOutput) :
    Except SerializeError ExportSerializeOutput :=
  writePrimitive 4 v s

/-- `writeLong`. -/
def writeLong (v : Int) (s : ExportSerializeOutput) :
    Except SerializeError ExportSerializeOutput :=
  writePrimitive 8 v s

/-- `writeBool`: `writeByte(value ? 1 : 0)`. -/
def writeBool (b : Bool) (s : ExportSerializeOutput) :
    Except SerializeError ExportSerializeOutput :=
  writeByte (if b then 1 else 0) s

/-- `writeFloat`: `memcpy`s the float's 32-bit IEEE-754 pattern into an
`int32_t` (`toSigned 4`) and writes that primitive. -/
def writeFloat (bits : Nat) (s : ExportSerializeOutput) :
    Except SerializeError ExportSerializeOutput :=
  writePrimitive 4 (toSigned 4 (bits % 256 ^ 4)) s

/-- `writeDouble`: `memcpy`s the double's 64-bit IEEE-754 pattern into an
`int64_t` (`toSigned 8`) and writes that primitive. -/
def writeDouble (bits : Nat) (s : ExportSerializeOutput) :
    Except SerializeError ExportSerializeOutput :=
  writePrimitive 8 (toSigned 8 (bits % 256 ^ 8)) s

/-- `writeEnumInSingleByte`: the source's
`assert(INT8_MIN <= value && value <= INT8_MAX)` is modelled as
`ValueOutOfRange`; in range, `writeByte(static_cast<int8_t>(value))`
(the cast is the identity for in-range values). -/
def writeEnumInSingleByte (v : Int) (s : ExportSerializeOutput) :
    Except SerializeError ExportSerializeOutput :=
  if -128 ≤ v ∧ v ≤ 127 then writeByte v s else .error .ValueOutOfRange

/-- `writeBinaryString(value, length)`: computes
`stringLength = static_cast<int32_t>(length)`, checks
`assureExpand(length + 4)`, stores the 4 length bytes then the payload,
and advances `position_` by `4 + length`. -/
def writeBinaryString (value : List Nat) (s : ExportSerializeOutput) :
    Except SerializeError ExportSerializeOutput :=
  let stringLength : Int := toSigned 4 (value.length % 256 ^ 4)
  match assureExpand (value.length + 4) s with
  | .error e => .error e
  | .ok _ => .ok { s with
      buffer := storeBytes
        (storeBytes s.buffer s.position (toLEBytes 4 (pattern 4 stringLength)))
        (s.position + 4) value,
      position := s.position + 4 + value.length }

/-- `writeBytes(value, length)`: `assureExpand(length)`, `memcpy`, advance. -/
def writeBytes (value : List Nat) (s : ExportSerializeOutput) :
    Except SerializeError ExportSerializeOutput :=
  match assureExpand value.length s with
  | .error e => .error e
  | .ok _ => .ok { s with
      buffer := storeBytes s.buffer s.position value,
      position := s.position + value.length }

/-- `writeZeros(length)`: `assureExpand(length)`, `memset(0)`, advance. -/
def writeZeros (length : Nat) (s : ExportSerializeOutput) :
    Except SerializeError ExportSerializeOutput :=
  match assureExpand length s with
  | .error e => .error e
  | .ok _ => .ok { s with
      buffer := storeBytes s.buffer s.position (List.replicate length 0),
      position := s.position + length }

/-- `reserveBytes(length)`: `assureExpand(length)`, then returns the old
`position_` and advances by `length` without touching the buffer. -/
def reserveBytes (length : Nat) (s : ExportSerializeOutput) :
    Except SerializeError (Nat × ExportSerializeOutput) :=
  match assureExpand length s with
  | .error e => .error e
  | .ok _ => .ok (s.position, { s with position := s.position + length })

/-- `size()`: `return position_;`. -/
def size (s : ExportSerializeOutput) : Nat := s.position

/-- The setter `position(std::size_t pos)`: `position_ = pos;`
unconditionally, with no validation against `capacity_`. -/
def setPosition (pos : Nat) (s : ExportSerializeOutput) : ExportSerializeOutput :=
  { s with position := pos }

/-- View a writer buffer as reader memory: offsets `≥ 0` read the buffer
(the bytes behind `data()`), other addresses are outside the region. -/
def memOf (b : Nat → Nat) : Int → Nat :=
  fun i => if 0 ≤ i then b i.toNat else 0

/-- A Reader constructed over the writer's buffer
(`ExportSerializeInput(out.data(), out.size())`) that has already consumed
`p` bytes, i.e. is positioned at offset `p`. -/
def inputAt (o : ExportSerializeOutput) (p : Nat) : ExportSerializeInput :=
  ⟨memOf o.buffer, (p : Int), (o.position : Int)⟩

/-- The Writer operations that unconditionally request to write a fixed
number of bytes, as one type, for quantifying over them. -/
inductive WriteOp where
  | wchar (v : Int)
  | wbyte (v : Int)
  | wshort (v : Int)
  | wint (v : Int)
  | wlong (v : Int)
  | wbool (b : Bool)
  | wfloat (bits : Nat)
  | wdouble (bits : Nat)
  | wbinary (l : List Nat)
  | wraw (l : List Nat)
  | wzeros (n : Nat)
  | wreserve (n : Nat)

/-- The number of bytes a `WriteOp` requests to write. -/
def WriteOp.width : WriteOp → Nat
  | .wchar _ => 1
  | .wbyte _ => 1
  | .wshort _ => 2
  | .wint _ => 4
  | .wlong _ => 8
  | .wbool _ => 1
  | .wfloat _ => 4
  | .wdouble _ => 8
  | .wbinary l => l.length + 4
  | .wraw l => l.length
  | .wzeros n => n
  | .wreserve n => n

/-- Run a `WriteOp` on a writer state (the offset `reserveBytes` returns is
dropped; only the state transition matters here). -/
def WriteOp.run : WriteOp → ExportSerializeOutput → Except SerializeError ExportSerializeOutput
  | .wchar v => writeChar v
  | .wbyte v => writeByte v
  | .wshort v => writeShort v
  | .wint v => writeInt v
  | .wlong v => writeLong v
  | .wbool b => writeBool b
  | .wfloat bits => writeFloat bits
  | .wdouble bits => writeDouble bits
  | .wbinary l => writeBinaryString l
  | .wraw l => writeBytes l
  | .wzeros n => writeZeros n
  | .wreserve n => fun s => (reserveBytes n s).map (fun r => r.2)

/-! ### Arithmetic and buffer lemmas -/

theorem toLEBytes_length (w : Nat) : ∀ n, (toLEBytes w n).length = w := by
  induction w with
  | zero => intro n; rfl
  | succ w ih => intro n; simp [toLEBytes, ih]

theorem storeBytes_apply_out (l : List Nat) :
    ∀ (buf : Nat → Nat) (p q : Nat), q < p ∨ p + l.length ≤ q →
      storeBytes buf p l q = buf q := by
  induction l with
  | nil => intro buf p q _; rfl
  | cons b bs ih =>
      intro buf p q hq
      simp only [List.length_cons] at hq
      show storeBytes (Function.update buf p b) (p + 1) bs q = buf q
      rw [ih (Function.update buf p b) (p + 1) q (by omega),
        Function.update_noteq (by omega)]

theorem storeBytes_apply_in (l : List Nat) :
    ∀ (buf : Nat → Nat) (p i : Nat), i < l.length →
      storeBytes buf p l (p + i) = l.getD i 0 := by
  induction l with
  | nil => intro _ _ i hi; simp at hi
  | cons b bs ih =>
      intro buf p i hi
      cases i with
      | zero =>
          show storeBytes (Function.update buf p b) (p + 1) bs (p + 0) = _
          rw [storeBytes_apply_out bs (Function.update buf p b) (p + 1) (p + 0)
            (by omega)]
          simp
      | succ j =>
          show storeBytes (Function.update buf p b) (p + 1) bs (p + (j + 1)) = _
          have hpj : p + (j + 1) = (p + 1) + j := by omega
          rw [hpj, ih (Function.update buf p b) (p + 1) j
            (by simp only [List.length_cons] at hi; omega)]
          simp

theorem readLE_eq (w : Nat) :
    ∀ (mem : Int → Nat) (c : Int) (n : Nat),
      (∀ i : Nat, i < w → mem (c + (i : Int)) = (toLEBytes w n).getD i 0) →
      readLE mem c w = n % 256 ^ w := by
  induction w with
  | zero => intro mem c n _; simp [readLE, Nat.mod_one]
  | succ w ih =>
      intro mem c n h
      have h0 : mem c = n % 256 := by
        have h00 := h 0 (by omega)
        simpa [toLEBytes] using h00
      have h1 : readLE mem (c + 1) w = (n / 256) % 256 ^ w := by
        apply ih
        intro i hi
        have hii := h (i + 1) (by omega)
        have hc : c + ((i + 1 : Nat) : Int) = c + 1 + (i : Int) := by push_cast; ring
        rw [hc] at hii
        simpa [toLEBytes] using hii
      show mem c % 256 + 256 * readLE mem (c + 1) w = n % 256 ^ (w + 1)
      rw [h0, h1]
      have hd : n / 256 % 256 ^ w = n % (256 * 256 ^ w) / 256 :=
        (Nat.mod_mul_right_div_self n 256 (256 ^ w)).symm
      have hm : n % (256 * 256 ^ w) % 256 = n % 256 :=
        Nat.mod_mod_of_dvd n ⟨256 ^ w, rfl⟩
      have hp : (256 : Nat) ^ (w + 1) = 256 * 256 ^ w := by ring
      have hmm : n % 256 % 256 = n % 256 := by omega
      rw [hp, hd, hmm, ← hm]
      exact Nat.mod_add_div (n % (256 * 256 ^ w)) 256

theorem pattern_lt (w : Nat) (v : Int) : pattern w v < 256 ^ w := by
  have hM : 0 < 256 ^ w := pow_pos (by norm_num) w
  have h1 : 0 ≤ v % ((256 ^ w : Nat) : Int) := Int.emod_nonneg v (by exact_mod_cast hM.ne')
  have h2 : v % ((256 ^ w : Nat) : Int) < ((256 ^ w : Nat) : Int) :=
    Int.emod_lt_of_pos v (by exact_mod_cast hM)
  unfold pattern
  omega

theorem emod_eq_add_of_neg (v M : Int) (h1 : -M ≤ v) (h2 : v < 0) : v % M = v + M := by
  have h3 : (v + M * 1) % M = v % M := Int.add_mul_emod_self_left v M 1
  have h4 : (v + M) % M = v + M := Int.emod_eq_of_lt (by omega) (by omega)
  rw [mul_one] at h3
  omega

theorem toSigned_pattern (w : Nat) (v : Int)
    (h1 : -((256 ^ w : Nat) : Int) ≤ 2 * v) (h2 : 2 * v < ((256 ^ w : Nat) : Int)) :
    toSigned w (pattern w v) = v := by
  have hM : 0 < 256 ^ w := pow_pos (by norm_num) w
  unfold toSigned pattern
  by_cases hv : 0 ≤ v
  · have hvM : v < ((256 ^ w : Nat) : Int) := by omega
    rw [Int.emod_eq_of_lt hv hvM]
    have hc : 2 * v.toNat < 256 ^ w := by omega
    rw [if_pos hc]
    omega
  · push_neg at hv
    have hvM : -((256 ^ w : Nat) : Int) ≤ v := by omega
    rw [emod_eq_add_of_neg v _ hvM hv]
    have hc : ¬ 2 * (v + ((256 ^ w : Nat) : Int)).toNat < 256 ^ w := by omega
    rw [if_neg hc]
    omega

theorem pattern_toSigned (w : Nat) (n : Nat) (h : n < 256 ^ w) :
    pattern w (toSigned w n) = n := by
  have hM : 0 < 256 ^ w := pow_pos (by norm_num) w
  unfold toSigned pattern
  by_cases hc : 2 * n < 256 ^ w
  · rw [if_pos hc, Int.emod_eq_of_lt (by omega) (by exact_mod_cast h)]
    omega
  · rw [if_neg hc, emod_eq_add_of_neg _ _ (by omega) (by omega)]
    omega

theorem memOf_add_nat (b : Nat → Nat) (p i : Nat) :
    memOf b ((p : Int) + (i : Int)) = b (p + i) := by
  have h : ((p : Int) + (i : Int)).toNat = p + i := by omega
  unfold memOf
  rw [if_pos (by positivity), h]

theorem readLE_mem (b : Nat → Nat) (p w n : Nat)
    (hbytes : ∀ i : Nat, i < w → b (p + i) = (toLEBytes w n).getD i 0) :
    readLE (memOf b) (p : Int) w = n % 256 ^ w := by
  apply readLE_eq
  intro i hi
  rw [memOf_add_nat, hbytes i hi]

theorem writePrimitive_ok (w : Nat) (v : Int) (s : ExportSerializeOutput)
    (h : s.position + w ≤ s.capacity) :
    writePrimitive w v s = .ok { s with
      buffer := storeBytes s.buffer s.position (toLEBytes w (pattern w v)),
      position := s.position + w } := by
  unfold writePrimitive assureExpand
  rw [if_pos h]

theorem writePrimitive_err (w : Nat) (v : Int) (s : ExportSerializeOutput)
    (h : s.capacity < s.position + w) :
    writePrimitive w v s = .error .BufferOverrun := by
  unfold writePrimitive assureExpand
  rw [if_neg (by omega)]

theorem readPrim_after_writePrim (w : Nat) (v : Int) (s : ExportSerializeOutput)
    (h : s.position + w ≤ s.capacity) :
    ∃ s', writePrimitive w v s = .ok s' ∧
      (readPrimitive w (inputAt s' s.position)).1 = toSigned w (pattern w v) := by
  refine ⟨{ s with
      buffer := storeBytes s.buffer s.position (toLEBytes w (pattern w v)),
      position := s.position + w }, writePrimitive_ok w v s h, ?_⟩
  show toSigned w
      (readLE (memOf (storeBytes s.buffer s.position (toLEBytes w (pattern w v))))
        ((s.position : Nat) : Int) w) = toSigned w (pattern w v)
  congr 1
  have hb : ∀ i : Nat, i < w →
      storeBytes s.buffer s.position (toLEBytes w (pattern w v)) (s.position + i) =
        (toLEBytes w (pattern w v)).getD i 0 := by
    intro i hi
    exact storeBytes_apply_in _ _ _ _ (by rw [toLEBytes_length]; exact hi)
  rw [readLE_mem _ _ _ _ hb]
  exact Nat.mod_eq_of_lt (pattern_lt w v)

/-! ### C1: primitive round trips -/

/-- The nine primitive round trips: each typed write into `s` (at cursor
`s.position`) followed by the corresponding typed read from the same offset
over the written buffer yields the original value (for floats and doubles,
the original IEEE-754 bit pattern). -/
def RoundTrips (s : ExportSerializeOutput) (vc vb vsh vi vl ve : Int)
    (b : Bool) (fbits dbits : Nat) : Prop :=
  (∃ s', writeChar vc s = .ok s' ∧ (readChar (inputAt s' s.position)).1 = vc) ∧
  (∃ s', writeByte vb s = .ok s' ∧ (readByte (inputAt s' s.position)).1 = vb) ∧
  (∃ s', writeShort vsh s = .ok s' ∧ (readShort (inputAt s' s.position)).1 = vsh) ∧
  (∃ s', writeInt vi s = .ok s' ∧ (readInt (inputAt s' s.position)).1 = vi) ∧
  (∃ s', writeLong vl s = .ok s' ∧ (readLong (inputAt s' s.position)).1 = vl) ∧
  (∃ s', writeBool b s = .ok s' ∧ (readBool (inputAt s' s.position)).1 = b) ∧
  (∃ s', writeEnumInSingleByte ve s = .ok s' ∧
    (readEnumInSingleByte (inputAt s' s.position)).1 = ve) ∧
  (∃ s', writeFloat fbits s = .ok s' ∧ (readFloat (inputAt s' s.position)).1 = fbits) ∧
  (∃ s', writeDouble dbits s = .ok s' ∧ (readDouble (inputAt s' s.position)).1 = dbits)

/-- C1: for every primitive type (char, signed byte, 16/32/64-bit signed
integer, boolean, single-byte enum tag, 32-bit float, 64-bit double) and
every value of that type, writing it with the Writer's typed write into a
buffer with sufficient remaining capacity and decoding from the same offset
with the Reader's corresponding typed read yields a value equal to the
original, bit-identical for floats and doubles. -/
theorem C1_primitive_round_trip (s : ExportSerializeOutput)
    (vc vb vsh vi vl ve : Int) (b : Bool) (fbits dbits : Nat)
    (hcap : s.position + 8 ≤ s.capacity)
    (hvc : -128 ≤ vc ∧ vc ≤ 127) (hvb : -128 ≤ vb ∧ vb ≤ 127)
    (hvsh : -32768 ≤ vsh ∧ vsh ≤ 32767)
    (hvi : -(2 ^ 31) ≤ vi ∧ vi < 2 ^ 31) (hvl : -(2 ^ 63) ≤ vl ∧ vl < 2 ^ 63)
    (hve : -128 ≤ ve ∧ ve ≤ 127)
    (hf : fbits < 2 ^ 32) (hd : dbits < 2 ^ 64) :
    RoundTrips s vc vb vsh vi vl ve b fbits dbits := by
  norm_num at hvi hvl hf hd
  refine ⟨?_, ?_, ?_, ?_, ?_, ?_, ?_, ?_, ?_⟩
  · obtain ⟨s', hw, hr⟩ := readPrim_after_writePrim 1 vc s (by omega)
    refine ⟨s', hw, ?_⟩
    show (readPrimitive 1 (inputAt s' s.position)).1 = vc
    rw [hr]
    exact toSigned_pattern 1 vc (by norm_num; omega) (by norm_num; omega)
  · obtain ⟨s', hw, hr⟩ := readPrim_after_writePrim 1 vb s (by omega)
    refine ⟨s', hw, ?_⟩
    show (readPrimitive 1 (inputAt s' s.position)).1 = vb
    rw [hr]
    exact toSigned_pattern 1 vb (by norm_num; omega) (by norm_num; omega)
  · obtain ⟨s', hw, hr⟩ := readPrim_after_writePrim 2 vsh s (by omega)
    refine ⟨s', hw, ?_⟩
    show (readPrimitive 2 (inputAt s' s.position)).1 = vsh
    rw [hr]
    exact toSigned_pattern 2 vsh (by norm_num; omega) (by norm_num; omega)
  · obtain ⟨s', hw, hr⟩ := readPrim_after_writePrim 4 vi s (by omega)
    refine ⟨s', hw, ?_⟩
    show (readPrimitive 4 (inputAt s' s.position)).1 = vi
    rw [hr]
    exact toSigned_pattern 4 vi (by norm_num; omega) (by norm_num; omega)
  · obtain ⟨s', hw, hr⟩ := readPrim_after_writePrim 8 vl s (by omega)
    refine ⟨s', hw, ?_⟩
    show (readPrimitive 8 (inputAt s' s.position)).1 = vl
    rw [hr]
    exact toSigned_pattern 8 vl (by norm_num; omega) (by norm_num; omega)
  · obtain ⟨s', hw, hr⟩ := readPrim_after_writePrim 1 (if b then 1 else 0) s (by omega)
    refine ⟨s', hw, ?_⟩
    show decide ((readPrimitive 1 (inputAt s' s.position)).1 ≠ 0) = b
    rw [hr, toSigned_pattern 1 _ (by cases b <;> norm_num) (by cases b <;> norm_num)]
    cases b <;> norm_num
  · obtain ⟨s', hw, hr⟩ := readPrim_after_writePrim 1 ve s (by omega)
    refine ⟨s', ?_, ?_⟩
    · show (if -128 ≤ ve ∧ ve ≤ 127 then writeByte ve s
          else Except.error .ValueOutOfRange) = .ok s'
      rw [if_pos hve]
      exact hw
    · show (readPrimitive 1 (inputAt s' s.position)).1 = ve
      rw [hr]
      exact toSigned_pattern 1 ve (by norm_num; omega) (by norm_num; omega)
  · obtain ⟨s', hw, hr⟩ :=
      readPrim_after_writePrim 4 (toSigned 4 (fbits % 256 ^ 4)) s (by omega)
    refine ⟨s', hw, ?_⟩
    simp only [readFloat]
    rw [hr]
    have hlt : fbits % 256 ^ 4 < 256 ^ 4 := Nat.mod_lt fbits (by norm_num)
    rw [pattern_toSigned 4 (fbits % 256 ^ 4) hlt,
      pattern_toSigned 4 (fbits % 256 ^ 4) hlt]
    exact Nat.mod_eq_of_lt (by norm_num; omega)
  · obtain ⟨s', hw, hr⟩ :=
      readPrim_after_writePrim 8 (toSigned 8 (dbits % 256 ^ 8)) s (by omega)
    refine ⟨s', hw, ?_⟩
    simp only [readDouble]
    rw [hr]
    have hlt : dbits % 256 ^ 8 < 256 ^ 8 := Nat.mod_lt dbits (by norm_num)
    rw [pattern_toSigned 8 (dbits % 256 ^ 8) hlt,
      pattern_toSigned 8 (dbits % 256 ^ 8) hlt]
    exact Nat.mod_eq_of_lt (by norm_num; omega)

/-- C1 witness: the round trips at concrete values in an 8-byte buffer. -/
theorem C1_primitive_round_trip_witness :
    RoundTrips ⟨fun _ => 0, 0, 8⟩ (-5) 7 (-300) 123456 (-987654321) 100
      true 3212836864 5 :=
  C1_primitive_round_trip ⟨fun _ => 0, 0, 8⟩ (-5) 7 (-300) 123456 (-987654321) 100
    true 3212836864 5 (by norm_num) (by norm_num) (by norm_num) (by norm_num)
    (by norm_num) (by norm_num) (by norm_num) (by norm_num) (by norm_num)

/-! ### Success/failure characterizations of the remaining writer operations -/

theorem writeBinaryString_ok (l : List Nat) (s : ExportSerializeOutput)
    (h : s.position + (l.length + 4) ≤ s.capacity) :
    writeBinaryString l s = .ok { s with
      buffer := storeBytes (storeBytes s.buffer s.position
        (toLEBytes 4 (pattern 4 (toSigned 4 (l.length % 256 ^ 4)))))
        (s.position + 4) l,
      position := s.position + 4 + l.length } := by
  unfold writeBinaryString assureExpand
  rw [if_pos h]

theorem writeBinaryString_err (l : List Nat) (s : ExportSerializeOutput)
    (h : s.capacity < s.position + (l.length + 4)) :
    writeBinaryString l s = .error .BufferOverrun := by
  unfold writeBinaryString assureExpand
  rw [if_neg (by omega)]

theorem writeBytes_ok (l : List Nat) (s : ExportSerializeOutput)
    (h : s.position + l.length ≤ s.capacity) :
    writeBytes l s = .ok { s with
      buffer := storeBytes s.buffer s.position l,
      position := s.position + l.length } := by
  unfold writeBytes assureExpand
  rw [if_pos h]

theorem writeBytes_err (l : List Nat) (s : ExportSerializeOutput)
    (h : s.capacity < s.position + l.length) :
    writeBytes l s = .error .BufferOverrun := by
  unfold writeBytes assureExpand
  rw [if_neg (by omega)]

theorem writeZeros_ok (n : Nat) (s : ExportSerializeOutput)
    (h : s.position + n ≤ s.capacity) :
    writeZeros n s = .ok { s with
      buffer := storeBytes s.buffer s.position (List.replicate n 0),
      position := s.position + n } := by
  unfold writeZeros assureExpand
  rw [if_pos h]

theorem writeZeros_err (n : Nat) (s : ExportSerializeOutput)
    (h : s.capacity < s.position + n) :
    writeZeros n s = .error .BufferOverrun := by
  unfold writeZeros assureExpand
  rw [if_neg (by omega)]

theorem reserveBytes_ok (n : Nat) (s : ExportSerializeOutput)
    (h : s.position + n ≤ s.capacity) :
    reserveBytes n s = .ok (s.position, { s with position := s.position + n }) := by
  unfold reserveBytes assureExpand
  rw [if_pos h]

theorem reserveBytes_err (n : Nat) (s : ExportSerializeOutput)
    (h : s.capacity < s.position + n) :
    reserveBytes n s = .error .BufferOverrun := by
  unfold reserveBytes assureExpand
  rw [if_neg (by omega)]

/-! ### C2: capacity enforcement -/

/-- C2: every Writer operation requesting to write `n` bytes at cursor
position `p` fails with `BufferOverrun` when `p + n` exceeds the capacity
fixed at construction; the capacity check precedes every buffer mutation in
the operation, so the failed call commits nothing (the error return carries
no new state: buffer prefix and cursor are untouched).  When
`p + n ≤ capacity` the write proceeds, advancing the cursor by `n`. -/
theorem C2_capacity_enforcement (op : WriteOp) (s : ExportSerializeOutput) :
    (s.capacity < s.position + op.width → op.run s = .error .BufferOverrun) ∧
    (s.position + op.width ≤ s.capacity →
      ∃ s', op.run s = .ok s' ∧ s'.position = s.position + op.width ∧
        s'.capacity = s.capacity) := by
  cases op with
  | wchar v =>
      exact ⟨fun h => writePrimitive_err 1 v s (by simpa [WriteOp.width] using h),
        fun h => ⟨_, writePrimitive_ok 1 v s (by simpa [WriteOp.width] using h), rfl, rfl⟩⟩
  | wbyte v =>
      exact ⟨fun h => writePrimitive_err 1 v s (by simpa [WriteOp.width] using h),
        fun h => ⟨_, writePrimitive_ok 1 v s (by simpa [WriteOp.width] using h), rfl, rfl⟩⟩
  | wshort v =>
      exact ⟨fun h => writePrimitive_err 2 v s (by simpa [WriteOp.width] using h),
        fun h => ⟨_, writePrimitive_ok 2 v s (by simpa [WriteOp.width] using h), rfl, rfl⟩⟩
  | wint v =>
      exact ⟨fun h => writePrimitive_err 4 v s (by simpa [WriteOp.width] using h),
        fun h => ⟨_, writePrimitive_ok 4 v s (by simpa [WriteOp.width] using h), rfl, rfl⟩⟩
  | wlong v =>
      exact ⟨fun h => writePrimitive_err 8 v s (by simpa [WriteOp.width] using h),
        fun h => ⟨_, writePrimitive_ok 8 v s (by simpa [WriteOp.width] using h), rfl, rfl⟩⟩
  | wbool b =>
      exact ⟨fun h => writePrimitive_err 1 (if b then 1 else 0) s
          (by simpa [WriteOp.width] using h),
        fun h => ⟨_, writePrimitive_ok 1 (if b then 1 else 0) s
          (by simpa [WriteOp.width] using h), rfl, rfl⟩⟩
  | wfloat bits =>
      exact ⟨fun h => writePrimitive_err 4 (toSigned 4 (bits % 256 ^ 4)) s
          (by simpa [WriteOp.width] using h),
        fun h => ⟨_, writePrimitive_ok 4 (toSigned 4 (bits % 256 ^ 4)) s
          (by simpa [WriteOp.width] using h), rfl, rfl⟩⟩
  | wdouble bits =>
      exact ⟨fun h => writePrimitive_err 8 (toSigned 8 (bits % 256 ^ 8)) s
          (by simpa [WriteOp.width] using h),
        fun h => ⟨_, writePrimitive_ok 8 (toSigned 8 (bits % 256 ^ 8)) s
          (by simpa [WriteOp.width] using h), rfl, rfl⟩⟩
  | wbinary l =>
      refine ⟨fun h => writeBinaryString_err l s (by simpa [WriteOp.width] using h),
        fun h => ⟨_, writeBinaryString_ok l s (by simpa [WriteOp.width] using h), ?_, rfl⟩⟩
      simp only [WriteOp.width]
      omega
  | wraw l =>
      exact ⟨fun h => writeBytes_err l s (by simpa [WriteOp.width] using h),
        fun h => ⟨_, writeBytes_ok l s (by simpa [WriteOp.width] using h), rfl, rfl⟩⟩
  | wzeros n =>
      exact ⟨fun h => writeZeros_err n s (by simpa [WriteOp.width] using h),
        fun h => ⟨_, writeZeros_ok n s (by simpa [WriteOp.width] using h), rfl, rfl⟩⟩
  | wreserve n =>
      constructor
      · intro h
        show (reserveBytes n s).map (fun r => r.2) = .error .BufferOverrun
        rw [reserveBytes_err n s (by simpa [WriteOp.width] using h)]
        rfl
      · intro h
        refine ⟨{ s with position := s.position + n }, ?_, rfl, rfl⟩
        show (reserveBytes n s).map (fun r => r.2) = .ok _
        rw [reserveBytes_ok n s (by simpa [WriteOp.width] using h)]
        rfl

/-- C2 witness: writing a 4-byte integer into a 2-byte-capacity buffer
overruns; into an 8-byte-capacity buffer it proceeds to position 4. -/
theorem C2_capacity_enforcement_witness :
    (WriteOp.run (.wint 7) ⟨fun _ => 0, 0, 2⟩ = .error .BufferOverrun) ∧
    (∃ s', WriteOp.run (.wint 7) ⟨fun _ => 0, 0, 8⟩ = .ok s' ∧
      s'.position = 4 ∧ s'.capacity = 8) :=
  ⟨(C2_capacity_enforcement (.wint 7) ⟨fun _ => 0, 0, 2⟩).1 (by decide),
    (C2_capacity_enforcement (.wint 7) ⟨fun _ => 0, 0, 8⟩).2 (by decide)⟩

/-! ### C4, C6: missing Reader bounds checks (code defects) -/

/-- C4 (code defect): the fixed-width reads go through
`readPrimitive`, which performs no bounds check of any kind — not even the
debug assertion `getRawPointer` has.  On a Reader over an empty buffer
(`current = 0`, `endPos = 0`), `readChar` completes and advances `current`
to `1 > endPos` instead of failing with `BufferOverrun`, violating the
claimed invariant `current ≤ end`. -/
theorem C4_fixed_width_read_unchecked :
    (readChar ⟨fun _ => 0, 0, 0⟩).2.current = 1 ∧
    (readChar ⟨fun _ => 0, 0, 0⟩).2.endPos = 0 := by
  constructor <;> decide

/-- C6 (code defect): `unread` is `current_ -= bytes;` with no validation
(the source's own comment flags this).  Rewinding a fresh Reader over a
4-byte buffer by 1 byte moves the cursor to offset `-1`, before the start
of the buffer, and reports no error at all. -/
theorem C6_unread_unchecked :
    (unread 1 ⟨fun _ => 0, 0, 4⟩).current = -1 := by decide

/-! ### C9: size is exactly the cursor; the setter is unvalidated -/

/-- C9: `size()` returns exactly the current cursor position, and the
position setter stores any requested offset unconditionally — with no
validation against capacity — so after `setPosition p` (for any `p`,
including `p > capacity`), `size` reports exactly `p`, not a high-water
mark of bytes ever written. -/
theorem C9_size_is_position (s : ExportSerializeOutput) (p : Nat) :
    size s = s.position ∧ setPosition p s = { s with position := p } ∧
    size (setPosition p s) = p :=
  ⟨rfl, rfl, rfl⟩

theorem toLEBytes_one (n : Nat) : toLEBytes 1 n = [n % 256] := rfl

theorem toLEBytes_four (n : Nat) :
    toLEBytes 4 n =
      [n % 256, n / 256 % 256, n / 256 / 256 % 256, n / 256 / 256 / 256 % 256] := rfl

/-! ### C5: negative length prefixes are rejected -/

theorem readTextString_neg_err (s : ExportSerializeInput)
    (h : toSigned 4 (readLE s.mem s.current 4) < 0) :
    readTextString s = .error .InvalidLength := by
  simp only [readTextString]
  rw [if_pos (show (readPrimitive 4 s).1 < 0 from h)]

/-- C5: when the 4 bytes at the Reader's cursor decode to a negative 32-bit
length, `readTextString` fails with `InvalidLength`; the error return
carries no payload, so no out-of-bounds payload read happens. -/
theorem C5_negative_length_rejected (s : ExportSerializeInput)
    (h : toSigned 4 (readLE s.mem s.current 4) < 0) :
    readTextString s = .error .InvalidLength :=
  readTextString_neg_err s h

/-- C5 witness: four `0xFF` bytes decode to the negative length `-1` and
reading them as a text string is rejected. -/
theorem C5_negative_length_rejected_witness :
    toSigned 4 (readLE (fun _ => 255) 0 4) < 0 ∧
    readTextString ⟨fun _ => 255, 0, 4⟩ = .error .InvalidLength :=
  ⟨by decide, C5_negative_length_rejected ⟨fun _ => 255, 0, 4⟩ (by decide)⟩

/-! ### C7: enum tag range enforcement -/

/-- C7: writing an enum tag whose value lies outside the signed-byte range
`[-128, 127]` reports `ValueOutOfRange` rather than silently truncating;
for an in-range value (with a byte of capacity left) exactly the one byte
holding the value's pattern is written and the position advances by 1. -/
theorem C7_enum_tag_range (v : Int) (s : ExportSerializeOutput) :
    ((v < -128 ∨ 127 < v) → writeEnumInSingleByte v s = .error .ValueOutOfRange) ∧
    (-128 ≤ v → v ≤ 127 → s.position + 1 ≤ s.capacity →
      ∃ s', writeEnumInSingleByte v s = .ok s' ∧ s'.position = s.position + 1 ∧
        s'.buffer s.position = pattern 1 v ∧
        ∀ q, q ≠ s.position → s'.buffer q = s.buffer q) := by
  constructor
  · intro h
    unfold writeEnumInSingleByte
    rw [if_neg (by omega)]
  · intro h1 h2 hcap
    refine ⟨{ s with
        buffer := storeBytes s.buffer s.position (toLEBytes 1 (pattern 1 v)),
        position := s.position + 1 }, ?_, rfl, ?_, ?_⟩
    · show (if -128 ≤ v ∧ v ≤ 127 then writeByte v s
          else Except.error .ValueOutOfRange) = _
      rw [if_pos ⟨h1, h2⟩]
      exact writePrimitive_ok 1 v s hcap
    · have h0 := storeBytes_apply_in (toLEBytes 1 (pattern 1 v)) s.buffer s.position 0
        (by rw [toLEBytes_length]; omega)
      have hmod : pattern 1 v % 256 = pattern 1 v :=
        Nat.mod_eq_of_lt (by simpa using pattern_lt 1 v)
      simpa [toLEBytes_one, hmod] using h0
    · intro q hq
      exact storeBytes_apply_out (toLEBytes 1 (pattern 1 v)) s.buffer s.position q
        (by rw [toLEBytes_length]; omega)

/-- C7 witness: writing tag 200 is rejected, writing tag 100 stores the
byte 100 at offset 0 of an 8-byte buffer and moves the cursor to 1. -/
theorem C7_enum_tag_range_witness :
    (writeEnumInSingleByte 200 ⟨fun _ => 0, 0, 8⟩ = .error .ValueOutOfRange) ∧
    (∃ s', writeEnumInSingleByte 100 ⟨fun _ => 0, 0, 8⟩ = .ok s' ∧
      s'.position = 1 ∧ s'.buffer 0 = pattern 1 100 ∧
      ∀ q, q ≠ 0 → s'.buffer q = 0) :=
  ⟨(C7_enum_tag_range 200 ⟨fun _ => 0, 0, 8⟩).1 (by decide),
    (C7_enum_tag_range 100 ⟨fun _ => 0, 0, 8⟩).2 (by decide) (by decide) (by decide)⟩

/-! ### C8: back-patching through reserve and reposition -/

/-- C8: in an 8-byte-capacity Writer, reserving 4 bytes (returning offset 0
and advancing to position 4), writing 4 more bytes (position 8), setting
the position back to 0, writing a 32-bit value, and setting the position to
8, yields a buffer whose first 4 bytes are the little-endian encoding of
the value's pattern, whose bytes 4..7 are the downstream content, and whose
`size()` reports 8. -/
theorem C8_back_patch (b0 : Nat → Nat) (d0 d1 d2 d3 : Nat) (v : Int) :
    ∃ s1 s2 s3,
      reserveBytes 4 ⟨b0, 0, 8⟩ = .ok (0, s1) ∧ s1.position = 4 ∧
      writeBytes [d0, d1, d2, d3] s1 = .ok s2 ∧ s2.position = 8 ∧
      writeInt v (setPosition 0 s2) = .ok s3 ∧
      size (setPosition 8 s3) = 8 ∧
      (setPosition 8 s3).buffer 0 = pattern 4 v % 256 ∧
      (setPosition 8 s3).buffer 1 = pattern 4 v / 256 % 256 ∧
      (setPosition 8 s3).buffer 2 = pattern 4 v / 256 / 256 % 256 ∧
      (setPosition 8 s3).buffer 3 = pattern 4 v / 256 / 256 / 256 % 256 ∧
      (setPosition 8 s3).buffer 4 = d0 ∧ (setPosition 8 s3).buffer 5 = d1 ∧
      (setPosition 8 s3).buffer 6 = d2 ∧ (setPosition 8 s3).buffer 7 = d3 :=
  ⟨⟨b0, 4, 8⟩, ⟨storeBytes b0 4 [d0, d1, d2, d3], 8, 8⟩,
    ⟨storeBytes (storeBytes b0 4 [d0, d1, d2, d3]) 0 (toLEBytes 4 (pattern 4 v)), 4, 8⟩,
    rfl, rfl, rfl, rfl, rfl, rfl, rfl, rfl, rfl, rfl, rfl, rfl, rfl, rfl⟩

/-! ### Frame lemmas -/

theorem writePrimitive_frame (w : Nat) (v : Int) (s s' : ExportSerializeOutput) (q : Nat)
    (hok : writePrimitive w v s = .ok s')
    (hq : q < s.position ∨ s.position + w ≤ q) :
    s'.buffer q = s.buffer q := by
  by_cases h : s.position + w ≤ s.capacity
  · rw [writePrimitive_ok w v s h] at hok
    injection hok with h'
    subst h'
    exact storeBytes_apply_out (toLEBytes w (pattern w v)) s.buffer s.position q
      (by rw [toLEBytes_length]; omega)
  · rw [writePrimitive_err w v s (by omega)] at hok
    cases hok

theorem writeBinaryString_frame (l : List Nat) (s s' : ExportSerializeOutput) (q : Nat)
    (hok : writeBinaryString l s = .ok s')
    (hq : q < s.position ∨ s.position + (l.length + 4) ≤ q) :
    s'.buffer q = s.buffer q := by
  by_cases h : s.position + (l.length + 4) ≤ s.capacity
  · rw [writeBinaryString_ok l s h] at hok
    injection hok with h'
    subst h'
    show storeBytes (storeBytes s.buffer s.position
      (toLEBytes 4 (pattern 4 (toSigned 4 (l.length % 256 ^ 4))))) (s.position + 4) l q
      = s.buffer q
    rw [storeBytes_apply_out l _ (s.position + 4) q (by omega),
      storeBytes_apply_out _ s.buffer s.position q (by rw [toLEBytes_length]; omega)]
  · rw [writeBinaryString_err l s (by omega)] at hok
    cases hok

theorem writeBytes_frame (l : List Nat) (s s' : ExportSerializeOutput) (q : Nat)
    (hok : writeBytes l s = .ok s')
    (hq : q < s.position ∨ s.position + l.length ≤ q) :
    s'.buffer q = s.buffer q := by
  by_cases h : s.position + l.length ≤ s.capacity
  · rw [writeBytes_ok l s h] at hok
    injection hok with h'
    subst h'
    exact storeBytes_apply_out l s.buffer s.position q (by omega)
  · rw [writeBytes_err l s (by omega)] at hok
    cases hok

theorem writeZeros_frame (n : Nat) (s s' : ExportSerializeOutput) (q : Nat)
    (hok : writeZeros n s = .ok s')
    (hq : q < s.position ∨ s.position + n ≤ q) :
    s'.buffer q = s.buffer q := by
  by_cases h : s.position + n ≤ s.capacity
  · rw [writeZeros_ok n s h] at hok
    injection hok with h'
    subst h'
    exact storeBytes_apply_out (List.replicate n 0) s.buffer s.position q
      (by rw [List.length_replicate]; omega)
  · rw [writeZeros_err n s (by omega)] at hok
    cases hok

theorem reserveBytes_buffer (n : Nat) (t : ExportSerializeOutput) (off : Nat)
    (t' : ExportSerializeOutput) (h : reserveBytes n t = .ok (off, t')) :
    t'.buffer = t.buffer := by
  by_cases hc : t.position + n ≤ t.capacity
  · rw [reserveBytes_ok n t hc] at h
    injection h with h2
    injection h2 with h3 h4
    subst h4
    rfl
  · rw [reserveBytes_err n t (by omega)] at h
    cases h

theorem getRawPointer_ok (len : Nat) (r : ExportSerializeInput)
    (h : r.current + (len : Int) ≤ r.endPos) :
    getRawPointer len r = .ok (r.current, { r with current := r.current + (len : Int) }) := by
  unfold getRawPointer
  rw [if_pos h]

theorem getRawPointer_err (len : Nat) (r : ExportSerializeInput)
    (h : r.endPos < r.current + (len : Int)) :
    getRawPointer len r = .error .BufferOverrun := by
  unfold getRawPointer
  rw [if_neg (by omega)]

theorem getRawPointer_mem (len : Nat) (r : ExportSerializeInput) (p' : Int)
    (r' : ExportSerializeInput) (h : getRawPointer len r = .ok (p', r')) :
    r'.mem = r.mem := by
  unfold getRawPointer at h
  by_cases hc : r.current + (len : Int) ≤ r.endPos
  · rw [if_pos hc] at h
    injection h with h2
    injection h2 with h3 h4
    subst h4
    rfl
  · rw [if_neg hc] at h
    cases h

theorem readTextString_mem (r : ExportSerializeInput) (l : List Nat)
    (r' : ExportSerializeInput) (h : readTextString r = .ok (l, r')) :
    r'.mem = r.mem := by
  simp only [readTextString] at h
  by_cases h1 : (readPrimitive 4 r).1 < 0
  · rw [if_pos h1] at h
    cases h
  · rw [if_neg h1] at h
    rcases hE : getRawPointer (readPrimitive 4 r).1.toNat (readPrimitive 4 r).2 with e | pr
    · rw [hE] at h
      cases h
    · rw [hE] at h
      obtain ⟨p2, s2⟩ := pr
      injection h with h2
      injection h2 with h3 h4
      subst h4
      have h5 := getRawPointer_mem _ _ _ _ hE
      exact h5

theorem readBytes_mem (len : Nat) (r : ExportSerializeInput) (l : List Nat)
    (r' : ExportSerializeInput) (h : readBytes len r = .ok (l, r')) :
    r'.mem = r.mem := by
  unfold readBytes at h
  rcases hE : getRawPointer len r with e | pr
  · rw [hE] at h
    cases h
  · rw [hE] at h
    obtain ⟨p2, s2⟩ := pr
    injection h with h2
    injection h2 with h3 h4
    subst h4
    exact getRawPointer_mem _ _ _ _ hE

/-! ### C10: frame conditions -/

/-- C10: a successful Writer operation that writes `w` bytes at cursor
position `p` modifies only the buffer bytes at offsets `[p, p + w)` and
leaves every other byte unchanged; `reserveBytes` and the position setter
modify no buffer bytes at all; and no Reader operation modifies the
underlying memory. -/
theorem C10_frame_conditions (op : WriteOp) (s s' : ExportSerializeOutput) (q : Nat)
    (hok : op.run s = .ok s')
    (hq : q < s.position ∨ s.position + op.width ≤ q) :
    s'.buffer q = s.buffer q ∧
    (∀ n t off t', reserveBytes n t = .ok (off, t') → t'.buffer = t.buffer) ∧
    (∀ p t, (setPosition p t).buffer = t.buffer) ∧
    (∀ w r, ((readPrimitive w r).2).mem = r.mem) ∧
    (∀ len r p' r', getRawPointer len r = .ok (p', r') → r'.mem = r.mem) ∧
    (∀ r l r', readTextString r = .ok (l, r') → r'.mem = r.mem) ∧
    (∀ len r l r', readBytes len r = .ok (l, r') → r'.mem = r.mem) ∧
    (∀ b r, (unread b r).mem = r.mem) := by
  refine ⟨?_, reserveBytes_buffer, fun p t => rfl, fun w r => rfl,
    getRawPointer_mem, readTextString_mem, readBytes_mem, fun b r => rfl⟩
  simp only [WriteOp.width] at hq
  cases op with
  | wchar v => exact writePrimitive_frame 1 v s s' q hok hq
  | wbyte v => exact writePrimitive_frame 1 v s s' q hok hq
  | wshort v => exact writePrimitive_frame 2 v s s' q hok hq
  | wint v => exact writePrimitive_frame 4 v s s' q hok hq
  | wlong v => exact writePrimitive_frame 8 v s s' q hok hq
  | wbool b => exact writePrimitive_frame 1 (if b then 1 else 0) s s' q hok hq
  | wfloat bits => exact writePrimitive_frame 4 (toSigned 4 (bits % 256 ^ 4)) s s' q hok hq
  | wdouble bits => exact writePrimitive_frame 8 (toSigned 8 (bits % 256 ^ 8)) s s' q hok hq
  | wbinary l => exact writeBinaryString_frame l s s' q hok hq
  | wraw l => exact writeBytes_frame l s s' q hok hq
  | wzeros n => exact writeZeros_frame n s s' q hok hq
  | wreserve n =>
      by_cases hc : s.position + n ≤ s.capacity
      · have hrun : WriteOp.run (.wreserve n) s =
            .ok { s with position := s.position + n } := by
          show (reserveBytes n s).map (fun r => r.2) = _
          rw [reserveBytes_ok n s hc]
          rfl
        rw [hrun] at hok
        injection hok with h'
        subst h'
        rfl
      · have hrun : WriteOp.run (.wreserve n) s = .error .BufferOverrun := by
          show (reserveBytes n s).map (fun r => r.2) = _
          rw [reserveBytes_err n s (by omega)]
          rfl
        rw [hrun] at hok
        cases hok

/-- C10 witness: writing byte 5 at position 0 of a 4-byte buffer filled
with 9s leaves offset 3 untouched. -/
theorem C10_frame_conditions_witness :
    WriteOp.run (.wbyte 5) ⟨fun _ => 9, 0, 4⟩ =
      .ok ⟨storeBytes (fun _ => 9) 0 (toLEBytes 1 (pattern 1 5)), 1, 4⟩ ∧
    storeBytes (fun _ => 9) 0 (toLEBytes 1 (pattern 1 5)) 3 = 9 :=
  ⟨rfl,
    (C10_frame_conditions (.wbyte 5) ⟨fun _ => 9, 0, 4⟩
      ⟨storeBytes (fun _ => 9) 0 (toLEBytes 1 (pattern 1 5)), 1, 4⟩ 3 rfl
      (Or.inr (by decide))).1⟩

/-! ### C3: length-prefix fidelity -/

theorem memOf_natCast (b : Nat → Nat) (k : Nat) : memOf b ((k : Nat) : Int) = b k := by
  unfold memOf
  rw [if_pos (by positivity)]
  norm_num

/-- Reading a length-prefixed string from a buffer whose field bytes encode
`N` (with `2N < 2^32`) and whose payload bytes are `l` succeeds and returns
`l`. -/
theorem readTextString_of_buffer (B : Nat → Nat) (p N endP : Nat) (l : List Nat)
    (hN2 : 2 * N < 256 ^ 4)
    (hfield : ∀ i, i < 4 → B (p + i) = (toLEBytes 4 N).getD i 0)
    (hpayload : ∀ i, i < N → B (p + 4 + i) = l.getD i 0)
    (hlenl : l.length = N)
    (hbytes : ∀ b ∈ l, b < 256)
    (hend : p + 4 + N ≤ endP) :
    ∃ r, readTextString (⟨memOf B, (p : Int), (endP : Int)⟩ : ExportSerializeInput) =
      .ok r ∧ r.1 = l := by
  have hread : readLE (memOf B) (p : Int) 4 = N % 256 ^ 4 := readLE_mem B p 4 N hfield
  have hmod : N % 256 ^ 4 = N := Nat.mod_eq_of_lt (by omega)
  have hval :
      (readPrimitive 4 (⟨memOf B, (p : Int), (endP : Int)⟩ : ExportSerializeInput)).1 =
        (N : Int) := by
    show toSigned 4 (readLE (memOf B) (p : Int) 4) = (N : Int)
    rw [hread, hmod]
    unfold toSigned
    rw [if_pos hN2]
  simp only [readTextString]
  rw [hval]
  rw [if_neg (by omega)]
  have htn : ((N : Int)).toNat = N := by omega
  rw [htn]
  have hgrp := getRawPointer_ok N
    ((readPrimitive 4 (⟨memOf B, (p : Int), (endP : Int)⟩ : ExportSerializeInput)).2)
    (by show (p : Int) + ((4 : Nat) : Int) + (N : Int) ≤ (endP : Int); push_cast; omega)
  rw [hgrp]
  refine ⟨_, rfl, ?_⟩
  show (List.range N).map
    (fun i : Nat => memOf B ((p : Int) + ((4 : Nat) : Int) + (i : Int)) % 256) = l
  apply List.ext_getElem
  · simp [hlenl]
  · intro i h1 h2
    simp only [List.getElem_map, List.getElem_range]
    have hi : i < N := by omega
    have hc : ((p : Int) + ((4 : Nat) : Int) + (i : Int)) = ((p + 4 + i : Nat) : Int) := by
      push_cast
      ring
    rw [hc, memOf_natCast, hpayload i hi, List.getD_eq_getElem l 0 h2]
    exact Nat.mod_eq_of_lt (hbytes _ (List.getElem_mem h2))

/-- C3 (amended: the payload length must be representable as a non-negative
32-bit signed integer, `N < 2^31`): writing a byte sequence of length `N`
as a length-prefixed binary string writes a 32-bit signed length field that
decodes to `N`, followed by the `N` payload bytes verbatim, advancing the
writer by exactly `N + 4`; reading back from the same offset as a
length-prefixed text string reproduces exactly the original `N` bytes. -/
theorem C3_length_prefix_fidelity (l : List Nat) (s : ExportSerializeOutput)
    (hbytes : ∀ b ∈ l, b < 256) (hlen : l.length < 2 ^ 31)
    (hcap : s.position + (l.length + 4) ≤ s.capacity) :
    ∃ s', writeBinaryString l s = .ok s' ∧
      s'.position = s.position + (l.length + 4) ∧
      toSigned 4 (readLE (memOf s'.buffer) (s.position : Int) 4) = (l.length : Int) ∧
      (∀ i, i < l.length → s'.buffer (s.position + 4 + i) = l.getD i 0) ∧
      ∃ r, readTextString (inputAt s' s.position) = .ok r ∧ r.1 = l := by
  have hN4 : l.length < 256 ^ 4 := lt_trans hlen (by norm_num)
  have hN2 : 2 * l.length < 256 ^ 4 := by
    have h32 : (2 : Nat) ^ 31 * 2 ≤ 256 ^ 4 := by norm_num
    omega
  have hP : pattern 4 (toSigned 4 (l.length % 256 ^ 4)) = l.length := by
    rw [Nat.mod_eq_of_lt hN4]
    exact pattern_toSigned 4 l.length hN4
  have hfield : ∀ i, i < 4 →
      storeBytes (storeBytes s.buffer s.position
          (toLEBytes 4 (pattern 4 (toSigned 4 (l.length % 256 ^ 4)))))
        (s.position + 4) l (s.position + i) = (toLEBytes 4 l.length).getD i 0 := by
    intro i hi
    rw [storeBytes_apply_out l _ (s.position + 4) (s.position + i) (by omega), hP]
    exact storeBytes_apply_in _ s.buffer s.position i (by rw [toLEBytes_length]; omega)
  have hpayload : ∀ i, i < l.length →
      storeBytes (storeBytes s.buffer s.position
          (toLEBytes 4 (pattern 4 (toSigned 4 (l.length % 256 ^ 4)))))
        (s.position + 4) l (s.position + 4 + i) = l.getD i 0 := by
    intro i hi
    exact storeBytes_apply_in l _ (s.position + 4) i hi
  refine ⟨_, writeBinaryString_ok l s hcap, ?_, ?_, ?_, ?_⟩
  · show s.position + 4 + l.length = s.position + (l.length + 4)
    omega
  · have hr := readLE_mem _ s.position 4 l.length hfield
    show toSigned 4 (readLE (memOf (storeBytes (storeBytes s.buffer s.position
        (toLEBytes 4 (pattern 4 (toSigned 4 (l.length % 256 ^ 4)))))
      (s.position + 4) l)) (s.position : Int) 4) = (l.length : Int)
    rw [hr, Nat.mod_eq_of_lt hN4]
    unfold toSigned
    rw [if_pos hN2]
  · exact hpayload
  · have h := readTextString_of_buffer
      (storeBytes (storeBytes s.buffer s.position
          (toLEBytes 4 (pattern 4 (toSigned 4 (l.length % 256 ^ 4)))))
        (s.position + 4) l)
      s.position l.length (s.position + 4 + l.length) l hN2 hfield hpayload rfl hbytes
      (le_refl _)
    exact h

/-- C3 witness: the two bytes `[104, 105]` round trip through
`writeBinaryString`/`readTextString` in a 16-byte buffer. -/
theorem C3_length_prefix_fidelity_witness :
    ∃ s', writeBinaryString [104, 105] ⟨fun _ => 0, 0, 16⟩ = .ok s' ∧
      s'.position = 0 + (2 + 4) ∧
      toSigned 4 (readLE (memOf s'.buffer) ((0 : Nat) : Int) 4) = 2 ∧
      (∀ i, i < 2 → s'.buffer (0 + 4 + i) = [104, 105].getD i 0) ∧
      ∃ r, readTextString (inputAt s' 0) = .ok r ∧ r.1 = [104, 105] :=
  C3_length_prefix_fidelity [104, 105] ⟨fun _ => 0, 0, 16⟩ (by decide) (by norm_num)
    (by norm_num)

/-- The buffer produced by writing `2^31` zero bytes as a binary string
into a fresh buffer of capacity `2^31 + 4`; irreducible so that no
reduction ever forces the `2^31`-element payload list. -/
@[irreducible] def c3Buffer : Nat → Nat :=
  storeBytes (storeBytes (fun _ => 0) 0 (toLEBytes 4 (2 ^ 31))) (0 + 4)
    (List.replicate (2 ^ 31) 0)

theorem c3Buffer_eq : c3Buffer =
    storeBytes (storeBytes (fun _ => 0) 0 (toLEBytes 4 (2 ^ 31))) (0 + 4)
      (List.replicate (2 ^ 31) 0) := by
  unfold c3Buffer
  rfl

/-- The writer state after that write. -/
def c3State : ExportSerializeOutput := ⟨c3Buffer, 0 + 4 + 2 ^ 31, 2 ^ 31 + 4⟩

/-- C3 counterexample: for the byte sequence of `N = 2^31` zeros and a
writer of capacity `N + 4`, the write succeeds, but the stored 32-bit
length field decodes to `-2^31 ≠ N` (the `int32_t` cast of the length
wraps), and reading back fails with `InvalidLength` instead of reproducing
the `N` bytes — refuting the claim as stated at this `N`. -/
theorem C3_length_prefix_counterexample :
    writeBinaryString (List.replicate (2 ^ 31) 0) ⟨fun _ => 0, 0, 2 ^ 31 + 4⟩ =
      .ok c3State ∧
    toSigned 4 (readLE (memOf c3State.buffer) ((0 : Nat) : Int) 4) = -(2 ^ 31) ∧
    readTextString (inputAt c3State 0) = .error .InvalidLength := by
  have hlen : (List.replicate (2 ^ 31) (0 : Nat)).length = 2 ^ 31 :=
    List.length_replicate _ _
  have h31 : (2 : Nat) ^ 31 < 256 ^ 4 := by norm_num
  have hstb : c3State.buffer = c3Buffer := rfl
  have hfield : ∀ i, i < 4 → c3Buffer (0 + i) = (toLEBytes 4 (2 ^ 31)).getD i 0 := by
    intro i hi
    rw [c3Buffer_eq]
    rw [storeBytes_apply_out (List.replicate (2 ^ 31) 0) _ (0 + 4) (0 + i)
      (Or.inl (by omega))]
    exact storeBytes_apply_in _ _ 0 i (by rw [toLEBytes_length]; omega)
  have hdec : toSigned 4 (readLE (memOf c3Buffer) ((0 : Nat) : Int) 4) = -(2 ^ 31) := by
    rw [readLE_mem c3Buffer 0 4 (2 ^ 31) hfield, Nat.mod_eq_of_lt h31]
    unfold toSigned
    rw [if_neg (by norm_num)]
    norm_num
  refine ⟨?_, ?_, ?_⟩
  · have hsb : (⟨fun _ => 0, 0, 2 ^ 31 + 4⟩ : ExportSerializeOutput).buffer =
        (fun _ => 0) := rfl
    have hsp : (⟨fun _ => 0, 0, 2 ^ 31 + 4⟩ : ExportSerializeOutput).position = 0 := rfl
    have hsc : (⟨fun _ => 0, 0, 2 ^ 31 + 4⟩ : ExportSerializeOutput).capacity =
        2 ^ 31 + 4 := rfl
    rw [writeBinaryString_ok (List.replicate (2 ^ 31) 0) ⟨fun _ => 0, 0, 2 ^ 31 + 4⟩
      (by simp only [hlen]; norm_num)]
    rw [hsb, hsp, hsc, hlen, Nat.mod_eq_of_lt h31, pattern_toSigned 4 (2 ^ 31) h31,
      ← c3Buffer_eq]
    rfl
  · rw [hstb]
    exact hdec
  · apply readTextString_neg_err
    have hmem : (inputAt c3State 0).mem = memOf c3Buffer := rfl
    have hcur : (inputAt c3State 0).current = ((0 : Nat) : Int) := rfl
    rw [hmem, hcur, hdec]
    norm_num

end NStore
